import Mathlib

/-!
Verification of the incremental collection and field-extraction engine of the
bizinfo-scraper repository, against its natural-language specification.

The JavaScript source (src/collect.js, second revision; src/run-daily.js) is
shallowly embedded: strings are Lean `String`s (JS `.length` / `slice` count
UTF-16 code units, which coincide with Lean characters for the BMP text this
program handles), JS objects used as maps become association lists, the
queryable DOM is abstracted to exactly the collections the extractor navigates
(table rows of header/data cells, dt/dd pairs, label-classed elements with
their next sibling, the body text and the main content container), and the
concrete regular expressions of the source are compiled by hand into
executable scanners with JS leftmost-match / greedy / lazy semantics.
-/

/-! ### JS character classes and string helpers -/

/-- The character set matched by the JavaScript regexp class `\s`
(also the set trimmed by `String.prototype.trim`). -/
def jsWs (c : Char) : Bool :=
  c = ' ' || c = '\t' || c = '\n' || c = '\r' ||
  c.toNat = 0x0B || c.toNat = 0x0C || c.toNat = 0xA0 || c.toNat = 0x1680 ||
  (0x2000 ≤ c.toNat && c.toNat ≤ 0x200A) ||
  c.toNat = 0x2028 || c.toNat = 0x2029 || c.toNat = 0x202F ||
  c.toNat = 0x205F || c.toNat = 0x3000 || c.toNat = 0xFEFF

def isDigitCh (c : Char) : Bool := '0' ≤ c && c ≤ '9'

/-- JS `String.prototype.includes`: `containsSub needle hay`. -/
def containsSub (needle : List Char) : List Char → Bool
  | [] => needle.isEmpty
  | c :: t => needle.isPrefixOf (c :: t) || containsSub needle t

/-- JS `s.includes(sub)` on strings. -/
def sIncludes (s sub : String) : Bool := containsSub sub.data s.data

/-- JS `s.replace(/\s/g, '')`. -/
def stripWsStr (s : String) : String := String.mk (s.data.filter (fun c => !jsWs c))

/-- JS `s.trim()` (drops `\s` characters from both ends). -/
def jsTrimStr (s : String) : String :=
  String.mk (((s.data.dropWhile jsWs).reverse.dropWhile jsWs).reverse)

/-- Replace every run of two or more `\s` characters by a single space,
leaving single whitespace characters unchanged: JS `s.replace(/\s{2,}/g, ' ')`. -/
def collapseRuns2Aux : Nat → List Char → List Char
  | 0, _ => []
  | _ + 1, [] => []
  | f + 1, c :: t =>
    if jsWs c then
      if t.takeWhile jsWs = [] then c :: collapseRuns2Aux f t
      else ' ' :: collapseRuns2Aux f (t.dropWhile jsWs)
    else c :: collapseRuns2Aux f t

/-- Replace every run of newlines by a single space: JS `s.replace(/\n+/g, ' ')`. -/
def collapseNlAux : Nat → List Char → List Char
  | 0, _ => []
  | _ + 1, [] => []
  | f + 1, c :: t =>
    if c = '\n' then ' ' :: collapseNlAux f (t.dropWhile (fun x => x = '\n'))
    else c :: collapseNlAux f t

/-- Replace every run of `\s` characters by a single space: JS `s.replace(/\s+/g, ' ')`. -/
def collapseAllWsAux : Nat → List Char → List Char
  | 0, _ => []
  | _ + 1, [] => []
  | f + 1, c :: t =>
    if jsWs c then ' ' :: collapseAllWsAux f (t.dropWhile jsWs)
    else c :: collapseAllWsAux f t

/-- `cleanText` of src/collect.js:
`(t || '').replace(/\s{2,}/g, ' ').replace(/\n+/g, ' ').trim().slice(0, 300)`. -/
def cleanText (s : String) : String :=
  let a := collapseRuns2Aux s.data.length s.data
  let b := collapseNlAux a.length a
  String.mk ((((b.dropWhile jsWs).reverse.dropWhile jsWs).reverse).take 300)

/-- JS `s.padStart(2, '0')`. -/
def padStart2 (s : String) : String :=
  if s.length = 0 then "00" else if s.length = 1 then "0" ++ s else s

/-! ### Deadline normalizer (`extractDeadlineFromPeriod`, src/collect.js)

The source scans its input with the global regexp
`/(\d{4})[.\-년]\s*(\d{1,2})[.\-월]\s*(\d{1,2})/g` and formats the last match. -/

def sepYear (c : Char) : Bool := c = '.' || c = '-' || c = '년'
def sepMonth (c : Char) : Bool := c = '.' || c = '-' || c = '월'

/-- Greedy `(\d{1,2})` followed by the mandatory `[.\-월]` separator:
two digits are preferred; backtracking to one digit can only succeed when the
second character is itself the separator (a digit never is). -/
def monthParse : List Char → Option (List Char × List Char)
  | a :: b :: t =>
    if !isDigitCh a then none
    else if isDigitCh b then
      match t with
      | c :: t2 => if sepMonth c then some ([a, b], t2) else none
      | [] => none
    else if sepMonth b then some ([a], t) else none
  | _ => none

/-- Trailing greedy `(\d{1,2})` with no following context. -/
def dayParse : List Char → Option (List Char × List Char)
  | a :: b :: t =>
    if isDigitCh a then
      if isDigitCh b then some ([a, b], t) else some ([a], b :: t)
    else none
  | [a] => if isDigitCh a then some ([a], []) else none
  | [] => none

/-- Try the date pattern at the head of the character list; on success return
the three captures and the remainder after the match. -/
def tryDate : List Char → Option ((String × String × String) × List Char)
  | y1 :: y2 :: y3 :: y4 :: c :: rest =>
    if isDigitCh y1 && isDigitCh y2 && isDigitCh y3 && isDigitCh y4 && sepYear c then
      match monthParse (rest.dropWhile jsWs) with
      | some (m, r2) =>
        match dayParse (r2.dropWhile jsWs) with
        | some (d, r4) =>
          some ((String.mk [y1, y2, y3, y4], String.mk m, String.mk d), r4)
        | none => none
      | none => none
    else none
  | _ => none

/-- `matchAll` semantics: successive non-overlapping leftmost matches. -/
def scanDatesAux : Nat → List Char → List (String × String × String)
  | 0, _ => []
  | _ + 1, [] => []
  | f + 1, c :: t =>
    match tryDate (c :: t) with
    | some (date, rest) => date :: scanDatesAux f rest
    | none => scanDatesAux f t

def findDatesIn (s : String) : List (String × String × String) :=
  scanDatesAux s.data.length s.data

/-- `extractDeadlineFromPeriod` of src/collect.js. -/
def extractDeadlineFromPeriod (period : String) : String :=
  if period = "" then ""
  else
    match (findDatesIn period).getLast? with
    | none => ""
    | some (y, m, d) => y ++ "-" ++ padStart2 m ++ "-" ++ padStart2 d

/-! ### Identity resolver (`extractId`, src/collect.js)

Ten ordered pattern matchers, then a deterministic 32-bit rolling hash of the
whole URL, base-36 encoded. -/

def classUpper (c : Char) : Bool := ('A' ≤ c && c ≤ 'Z') || ('0' ≤ c && c ≤ '9') || c = '_'

/-- Single-quote character, used by the `fncGoDetail('…')` patterns. -/
def sqCh : Char := Char.ofNat 39

/-- Leftmost match of a pattern `lit([cls]+)`: the literal followed by at
least one class character; the capture is the maximal class run. -/
def findCapture (lit : List Char) (cls : Char → Bool) : List Char → Option (List Char)
  | [] => none
  | c :: t =>
    if lit.isPrefixOf (c :: t) then
      let run := ((c :: t).drop lit.length).takeWhile cls
      if run.isEmpty then findCapture lit cls t else some run
    else findCapture lit cls t

/-- Leftmost match of `lit([0-9]+)')` — the capture must be followed by the
two characters `'` and `)`. -/
def findCallCapture (lit : List Char) : List Char → Option (List Char)
  | [] => none
  | c :: t =>
    if lit.isPrefixOf (c :: t) then
      let rest := (c :: t).drop lit.length
      let run := rest.takeWhile isDigitCh
      if run ≠ [] ∧ (rest.dropWhile isDigitCh).take 2 = [sqCh, ')'] then some run
      else findCallCapture lit t
    else findCallCapture lit t

/-- The lazy tail `.*?&id=([0-9]+)` of pattern 6: earliest `&id=` followed by a
digit, with no newline in between (JS `.` does not match a newline). -/
def findAmpId : List Char → Option (List Char)
  | [] => none
  | c :: t =>
    if ("&id=".data).isPrefixOf (c :: t) then
      let run := ((c :: t).drop 4).takeWhile isDigitCh
      if run ≠ [] then some run
      else if c = '\n' then none else findAmpId t
    else if c = '\n' then none
    else findAmpId t

/-- Pattern 6: `/pageIndex=[0-9]+.*?&id=([0-9]+)/`. -/
def findPageIndexId : List Char → Option (List Char)
  | [] => none
  | c :: t =>
    if ("pageIndex=".data).isPrefixOf (c :: t) then
      let rest := (c :: t).drop 10
      if rest.takeWhile isDigitCh ≠ [] then
        match findAmpId (rest.dropWhile isDigitCh) with
        | some r => some r
        | none => findPageIndexId t
      else findPageIndexId t
    else findPageIndexId t

/-- The lazy tail `.*?no=([0-9]+)` of pattern 9. -/
def findNoEq : List Char → Option (List Char)
  | [] => none
  | c :: t =>
    if ("no=".data).isPrefixOf (c :: t) then
      let run := ((c :: t).drop 3).takeWhile isDigitCh
      if run ≠ [] then some run
      else if c = '\n' then none else findNoEq t
    else if c = '\n' then none
    else findNoEq t

/-- Pattern 9: `/view\.do.*?no=([0-9]+)/`. -/
def findViewDoNo : List Char → Option (List Char)
  | [] => none
  | c :: t =>
    if ("view.do".data).isPrefixOf (c :: t) then
      match findNoEq ((c :: t).drop 7) with
      | some r => some r
      | none => findViewDoNo t
    else findViewDoNo t

def firstSome : List (Option (List Char)) → Option (List Char)
  | [] => none
  | o :: t => match o with | some r => some r | none => firstSome t

/-- JS `ToInt32`. -/
def toInt32 (n : Int) : Int := (n + 2 ^ 31) % 2 ^ 32 - 2 ^ 31

/-- One step of the rolling hash: `hash = ((hash << 5) - hash) + code; hash |= 0`.
The shift itself wraps to a signed 32-bit value, as JS `<<` does. -/
def jsHashStep (h : Int) (c : Char) : Int :=
  toInt32 (toInt32 (h * 32) - h + c.toNat)

def jsHash (s : String) : Int := s.data.foldl jsHashStep 0

def b36digit (n : Nat) : Char := if n < 10 then Char.ofNat (48 + n) else Char.ofNat (87 + n)

def toBase36Aux : Nat → Nat → List Char → List Char
  | 0, _, acc => acc
  | _ + 1, 0, acc => acc
  | f + 1, n + 1, acc => toBase36Aux f ((n + 1) / 36) (b36digit ((n + 1) % 36) :: acc)

/-- JS `Math.abs(hash).toString(36)` for a natural number argument. -/
def toBase36 (n : Nat) : String :=
  if n = 0 then "0" else String.mk (toBase36Aux n n [])

/-- The ten ordered pattern matchers of `extractId` (src/collect.js, second
revision), applied to the URL's character list. -/
def extractIdMatchers (s : List Char) : List (Option (List Char)) :=
  [findCapture "pblancId=".data classUpper s,
   findCapture "pbancSn=".data isDigitCh s,
   findCapture "ancmId=".data classUpper s,
   findCapture "biz_no=".data isDigitCh s,
   findCapture "seq=".data isDigitCh s,
   findPageIndexId s,
   findCallCapture ("fncGoDetail(".data ++ [sqCh]) s,
   findCallCapture ("goDetail(".data ++ [sqCh]) s,
   findViewDoNo s,
   findCapture "bbsSeq=".data isDigitCh s]

/-- `extractId` of src/collect.js (second revision): the first of ten URL
pattern matchers that captures wins; otherwise the base-36 rolling hash. -/
def extractId (url : String) : String :=
  match firstSome (extractIdMatchers url.data) with
  | some r => String.mk r
  | none => toBase36 (jsHash url).natAbs

/-! ### Classifiers and per-run item processing (src/collect.js, second revision) -/

/-- `isTargetAudience` of src/collect.js. -/
def targetKeywords : List String :=
  ["청년", "청년창업", "청년사업자", "청년기업",
   "소상공인", "소기업", "영세", "자영업",
   "1인", "1인사업자", "1인기업", "프리랜서", "1인창업",
   "예비창업", "초기창업", "예비창업자", "초기창업자",
   "창업준비", "창업예정",
   "3년 미만", "3년미만", "5년 미만", "5년미만",
   "7년 미만", "7년미만", "10년 미만", "10년미만",
   "창업 3년", "창업3년", "창업 5년", "창업5년",
   "스타트업", "벤처", "창업기업", "신생기업",
   "중소기업", "소규모",
   "창업자", "창업지원", "창업육성"]

def isTargetAudience (title : String) : Bool :=
  targetKeywords.any (fun kw => sIncludes title kw)

def anyIncl (title : String) (kws : List String) : Bool :=
  kws.any (fun kw => sIncludes title kw)

/-- `getCategory` of src/collect.js. -/
def getCategory (title : String) : String :=
  if anyIncl title ["교육", "강좌", "아카데미", "연수", "훈련", "강의", "부트캠프", "캠프"] then "창업교육"
  else if anyIncl title ["멘토", "컨설팅", "코칭", "자문", "진단", "상담"] then "컨설팅/멘토링"
  else if anyIncl title ["글로벌", "해외", "수출", "국제", "무역"] then "글로벌"
  else if anyIncl title ["공간", "시설", "입주", "사무실", "센터", "공유오피스"] then "시설제공"
  else if anyIncl title ["투자", "융자", "대출", "보증", "펀드", "자금", "지원금", "보조금", "R&D", "연구개발"] then "자금지원"
  else if anyIncl title ["판로", "마케팅", "홍보", "전시", "박람회", "유통"] then "판로/마케팅"
  else "사업화"

/-- `getRegionCategory` of src/collect.js. -/
def getRegionCategory (title : String) : String :=
  if sIncludes title "서울" then "서울"
  else if anyIncl title ["경기", "수원", "성남", "고양", "용인", "부천"] then "경기"
  else if sIncludes title "인천" then "인천"
  else if sIncludes title "부산" then "부산"
  else if sIncludes title "대구" then "대구"
  else if sIncludes title "대전" then "대전"
  else if sIncludes title "광주" then "광주"
  else if sIncludes title "울산" then "울산"
  else if sIncludes title "세종" then "세종"
  else if anyIncl title ["강원", "춘천", "원주"] then "강원"
  else if anyIncl title ["충북", "청주"] then "충북"
  else if anyIncl title ["충남", "천안", "아산"] then "충남"
  else if anyIncl title ["전북", "전주"] then "전북"
  else if anyIncl title ["전남", "목포", "여수"] then "전남"
  else if anyIncl title ["경북", "포항", "구미"] then "경북"
  else if anyIncl title ["경남", "창원", "진주"] then "경남"
  else if sIncludes title "제주" then "제주"
  else "전국"

/-- Character class of the leading-tag regexp `[가-힣A-Za-z0-9\s]`. -/
def tagClass (c : Char) : Bool :=
  ('가' ≤ c && c ≤ '힣') || ('A' ≤ c && c ≤ 'Z') || ('a' ≤ c && c ≤ 'z') ||
  ('0' ≤ c && c ≤ '9') || jsWs c

/-- JS `title.replace(/^\[[가-힣A-Za-z0-9\s]+\]\s*/, '')`: the anchored match
strips one leading bracketed tag together with the whitespace after it.  The
greedy class run must be maximal, since `]` is not in the class. -/
def stripLeadTag (s : String) : String :=
  match s.data with
  | '[' :: rest =>
    let run := rest.takeWhile tagClass
    if run ≠ [] then
      match rest.dropWhile tagClass with
      | ']' :: t => String.mk (t.dropWhile jsWs)
      | _ => s
    else s
  | _ => s

/-- `cleanTitle` of `processItems`: strip the leading tag, then `.trim()`. -/
def cleanTitleOf (title : String) : String := jsTrimStr (stripLeadTag title)

/-- `normalizedTitle` of `processItems`:
`cleanTitle.replace(/\s+/g, ' ').trim()`. -/
def normalizedTitleOf (title : String) : String :=
  let c := cleanTitleOf title
  jsTrimStr (String.mk (collapseAllWsAux c.data.length c.data))

/-- A raw listing tuple as produced by the per-source collectors. -/
structure RawItem where
  title : String
  url : String
  date : String
  region : String := ""
  deriving DecidableEq, Repr

/-- An assembled announcement record (src/collect.js `processItems`). -/
structure Announcement where
  id : String
  source : String
  title : String
  url : String
  date : String
  region : String
  regionCategory : String
  category : String
  cleanTitle : String
  isTarget : Bool
  isNew : Bool
  deriving DecidableEq, Repr

/-- Association-list lookup standing for a JS object used as a map. -/
def lookupStr (db : List (String × String)) (k : String) : Option String :=
  match db with
  | [] => none
  | (a, b) :: t => if a = k then some b else lookupStr t k

/-- JS truthiness of `db[id]` for a string-valued store: present and nonempty. -/
def dbTruthy (db : List (String × String)) (k : String) : Bool :=
  match lookupStr db k with
  | some v => !(v = "")
  | none => false

/-- The record built for one raw item inside the `processItems` loop. -/
def recordOf (sourceId : String) (db : List (String × String)) (item : RawItem) : Announcement :=
  let id := sourceId ++ "_" ++ extractId item.url
  { id := id
    source := sourceId
    title := item.title
    url := item.url
    date := item.date
    region := if item.region = "" then "전국" else item.region
    regionCategory := getRegionCategory item.title
    category := getCategory item.title
    cleanTitle := cleanTitleOf item.title
    isTarget := isTargetAudience item.title
    isNew := !dbTruthy db id }

/-- The `processItems` loop of src/collect.js (second revision), with the
per-run `seenTitles` set made explicit. -/
def processItemsAux (sourceId : String) (db : List (String × String)) :
    List RawItem → List String → List Announcement
  | [], _ => []
  | it :: t, seen =>
    let nt := normalizedTitleOf it.title
    if seen.contains nt then processItemsAux sourceId db t seen
    else recordOf sourceId db it :: processItemsAux sourceId db t (nt :: seen)

/-- `processItems(rawItems, sourceId, db)` of src/collect.js. -/
def processItems (rawItems : List RawItem) (sourceId : String)
    (db : List (String × String)) : List Announcement :=
  processItemsAux sourceId db rawItems []

/-- The email path of `main` (src/collect.js): per source, only
`items.filter(i => i.isNew)` enters the notification body. -/
def emailNewItems (items : List Announcement) : List Announcement :=
  items.filter (fun i => i.isNew)

/-! ### Detail fetcher and field extractor (`fetchItemDetail`, src/collect.js)

The rendered detail document is abstracted to exactly the collections the
in-page extraction script navigates: tables as lists of rows of th/td cells
(sibling order preserved), `dt` elements with their next sibling element,
elements whose class hints a label together with their next sibling's text,
the whole-document body text, and the optional main content container. -/

inductive CTag | th | td
  deriving DecidableEq, Repr

structure Cell where
  tag : CTag
  text : String
  deriving DecidableEq, Repr

/-- A `dt` element and its `nextElementSibling` (tag name and inner text). -/
structure DtEntry where
  text : String
  next : Option (String × String)
  deriving DecidableEq, Repr

/-- An element matching `[class*=label],[class*=tit],[class*=title],[class*=head]`,
with the inner text of its `nextElementSibling` when one exists. -/
structure LabelEntry where
  text : String
  next : Option String
  deriving DecidableEq, Repr

structure Doc where
  tables : List (List (List Cell))
  dts : List DtEntry
  labels : List LabelEntry
  bodyText : String
  mainContent : Option String
  deriving DecidableEq, Repr

/-- One `th` element in context: its text, the cells after it in its row,
its whole row (`closest('tr')`), and the next row (`tr.nextElementSibling`). -/
structure ThCtx where
  text : String
  after : List Cell
  row : List Cell
  nextRow : Option (List Cell)
  deriving DecidableEq, Repr

def thCtxsAux (row : List Cell) (next : Option (List Cell)) : List Cell → List ThCtx
  | [] => []
  | c :: t =>
    (if c.tag = CTag.th then [⟨c.text, t, row, next⟩] else []) ++ thCtxsAux row next t

def tableThCtxs : List (List Cell) → List ThCtx
  | [] => []
  | r :: rest => thCtxsAux r rest.head? r ++ tableThCtxs rest

/-- `document.querySelectorAll('th')` in document order, with row context. -/
def docThCtxs (doc : Doc) : List ThCtx := (doc.tables.map tableThCtxs).flatten

/-- `tr.querySelector('td')`. -/
def firstTd (cells : List Cell) : Option Cell :=
  cells.find? (fun c => c.tag = CTag.td)

/-- The recurring acceptance idiom of the extraction strategies:
`const t = cleanText(x); if (t.length > 2) return t`. -/
def acceptLen (s : String) : Option String :=
  let t := cleanText s
  if t.length > 2 then some t else none

/-- The body of the `getThTdValue` loop for one `th`: skip adjacent header
cells, accept the paired `td` when its cleaned text is longer than 2, else
fall back to the first `td` of this row or of the next row. -/
def thMatchValue (kc : String) (ctx : ThCtx) : Option String :=
  if containsSub kc.data (stripWsStr ctx.text).data then
    let sibs := ctx.after.dropWhile (fun c => c.tag = CTag.th)
    let fromSib : Option String :=
      match sibs with
      | c :: _ => if c.tag = CTag.td then acceptLen c.text else none
      | [] => none
    match fromSib with
    | some t => some t
    | none =>
      match (match firstTd ctx.row with
             | some c => some c
             | none => ctx.nextRow.bind firstTd) with
      | some c => acceptLen c.text
      | none => none
  else none

/-- `getThTdValue(keyClean)` of src/collect.js. -/
def getThTdValue (doc : Doc) (kc : String) : String :=
  ((docThCtxs doc).findSome? (thMatchValue kc)).getD ""

/-- `document.querySelectorAll('tr')` in document order. -/
def allRows (doc : Doc) : List (List Cell) := doc.tables.flatten

/-- The body of extraction pattern 2 for one row: two-column label/value rows,
with a second label/value pair in four-column rows. -/
def rowTdMatch (kc : String) (row : List Cell) : Option String :=
  let tds := row.filter (fun c => c.tag = CTag.td)
  if tds.length ≥ 2 then
    let first :=
      match tds.get? 0, tds.get? 1 with
      | some l, some v =>
        if containsSub kc.data (stripWsStr l.text).data then acceptLen v.text else none
      | _, _ => none
    match first with
    | some t => some t
    | none =>
      if tds.length = 4 then
        match tds.get? 2, tds.get? 3 with
        | some l, some v =>
          if containsSub kc.data (stripWsStr l.text).data then acceptLen v.text else none
        | _, _ => none
      else none
  else none

def tdTdValue (doc : Doc) (kc : String) : String :=
  ((allRows doc).findSome? (rowTdMatch kc)).getD ""

/-- Extraction pattern 3: a `dt` containing the key, paired with an
immediately following `dd`. -/
def dtMatch (kc : String) (e : DtEntry) : Option String :=
  if containsSub kc.data (stripWsStr e.text).data then
    match e.next with
    | some (tag, txt) => if tag = "DD" then acceptLen txt else none
    | none => none
  else none

def dtDdValue (doc : Doc) (kc : String) : String :=
  (doc.dts.findSome? (dtMatch kc)).getD ""

/-- Extraction pattern 4: a label-classed element containing the key, paired
with its next sibling, accepted only for a plausible text length. -/
def labelMatch (kc : String) (e : LabelEntry) : Option String :=
  if containsSub kc.data (stripWsStr e.text).data then
    match e.next with
    | some txt =>
      let t := cleanText txt
      if t.length > 2 && t.length < 500 then some t else none
    | none => none
  else none

def labelSibValue (doc : Doc) (kc : String) : String :=
  (doc.labels.findSome? (labelMatch kc)).getD ""

/-- The four patterns tried for one synonym key, in source order. -/
def extractValueKey (doc : Doc) (key : String) : String :=
  if getThTdValue doc (stripWsStr key) ≠ "" then getThTdValue doc (stripWsStr key)
  else if tdTdValue doc (stripWsStr key) ≠ "" then tdTdValue doc (stripWsStr key)
  else if dtDdValue doc (stripWsStr key) ≠ "" then dtDdValue doc (stripWsStr key)
  else labelSibValue doc (stripWsStr key)

/-- `extractValue(keys)` of src/collect.js: all four patterns for the first
key, then for the next key, and so on. -/
def extractValue (doc : Doc) : List String → String
  | [] => ""
  | k :: t =>
    if extractValueKey doc k ≠ "" then extractValueKey doc k else extractValue doc t

def eligibilityKeys : List String :=
  ["지원대상", "지원 대상", "신청자격", "신청 자격", "참여대상", "참여 대상",
   "지원자격", "지원 자격", "접수자격", "대상기업", "지원대상기업"]

def contentKeys : List String :=
  ["지원내용", "지원 내용", "사업내용", "사업 내용", "지원사항", "지원 사항",
   "지원 항목", "내용", "공고내용", "사업개요"]

def periodKeys : List String :=
  ["신청기간", "신청 기간", "접수기간", "접수 기간", "모집기간", "모집 기간",
   "공모기간", "사업기간", "사업 기간", "신청일정", "공고기간"]

def amountKeys : List String :=
  ["지원규모", "지원 규모", "지원금액", "지원 금액", "지원한도", "지원내역"]

def sepDot (c : Char) : Bool := c = '.' || c = '-'

/-- `\d{4}[.\-]\d{2}[.\-]\d{2}` at the head of the list; returns the ten
matched characters and the remainder. -/
def try10Date : List Char → Option (List Char × List Char)
  | a :: b :: c :: d :: s1 :: e :: f :: s2 :: g :: h :: t =>
    if [a, b, c, d, e, f, g, h].all isDigitCh && sepDot s1 && sepDot s2 then
      some ([a, b, c, d, s1, e, f, s2, g, h], t)
    else none
  | _ => none

/-- The whole range pattern
`/(\d{4}[.\-]\d{2}[.\-]\d{2})\s*[~～]\s*(\d{4}[.\-]\d{2}[.\-]\d{2})/`
anchored at the current position. -/
def tryRangeAt (s : List Char) : Option (String × String) :=
  match try10Date s with
  | some (g1, r1) =>
    match r1.dropWhile jsWs with
    | tl :: r3 =>
      if tl = '~' || tl = '～' then
        match try10Date (r3.dropWhile jsWs) with
        | some (g2, _) => some (String.mk g1, String.mk g2)
        | none => none
      else none
    | [] => none
  | none => none

def findRangeAux : Nat → List Char → Option (String × String)
  | 0, _ => none
  | _ + 1, [] => none
  | f + 1, c :: t =>
    match tryRangeAt (c :: t) with
    | some r => some r
    | none => findRangeAux f t

/-- Leftmost date-range match in the document body text. -/
def findDateRange (s : String) : Option (String × String) :=
  findRangeAux s.data.length s.data

/-- The `{eligibility, content, period, amount}` object assembled in the page
context; an absent field is the empty string. -/
structure DetailResult where
  eligibility : String := ""
  content : String := ""
  period : String := ""
  amount : String := ""
  deriving DecidableEq, Repr

/-- `startVal` of the smtech-specific period composition. -/
def smtechStartVal (doc : Doc) : String :=
  if getThTdValue doc "시작일자" ≠ "" then getThTdValue doc "시작일자"
  else getThTdValue doc "사업시작일"

/-- `endVal` of the smtech-specific period composition. -/
def smtechEndVal (doc : Doc) : String :=
  if getThTdValue doc "종료일자" ≠ "" then getThTdValue doc "종료일자"
  else if getThTdValue doc "사업종료일" ≠ "" then getThTdValue doc "사업종료일"
  else getThTdValue doc "마감일자"

/-- The composed `${startVal.trim()} ~ ${endVal.trim()}` period, or the bare
end value; empty when no end value was found. -/
def periodComposed (doc : Doc) : String :=
  if smtechEndVal doc ≠ "" then
    if smtechStartVal doc ≠ "" then
      jsTrimStr (smtechStartVal doc) ++ " ~ " ++ jsTrimStr (smtechEndVal doc)
    else jsTrimStr (smtechEndVal doc)
  else ""

/-- The final `period` field: the synonym cascade, else the smtech start/end
composition, else the body-text date-range fallback. -/
def periodField (doc : Doc) : String :=
  if extractValue doc periodKeys ≠ "" then extractValue doc periodKeys
  else if periodComposed doc ≠ "" then periodComposed doc
  else
    match findDateRange doc.bodyText with
    | some (g1, g2) => g1 ++ " ~ " ++ g2
    | none => ""

/-- The final `content` field: the synonym cascade, else the smtech `내용`
header, else the main-content-container fallback. -/
def contentField (doc : Doc) : String :=
  if extractValue doc contentKeys ≠ "" then extractValue doc contentKeys
  else if getThTdValue doc "내용" ≠ "" then getThTdValue doc "내용"
  else
    match doc.mainContent with
    | some t => cleanText t
    | none => ""

/-- The page-evaluated part of `fetchItemDetail`: `extractValue` per field in
source order, then the smtech start/end composition for `period`, the smtech
`내용` header for `content`, the body-text date-range fallback for `period`,
and the main-content-container fallback for `content`. -/
def fetchDetailFields (doc : Doc) : DetailResult :=
  { eligibility := extractValue doc eligibilityKeys
    content := contentField doc
    period := periodField doc
    amount := extractValue doc amountKeys }

/-! ### Post-processing in `main` (src/collect.js): junk filtering and the
deadline overwrite -/

/-- `JUNK_VALUES` of src/collect.js. -/
def junkValues : List String := ["구 분", "구분", "-", "·", "해당없음", "없음", ""]

/-- The per-field body of the cleanup loop:
`if (v && !JUNK_VALUES.has(v.trim()) && v.trim().length > 3) cleaned[k] = v`. -/
def keepDetailVal (v : String) : String :=
  if v = "" then ""
  else if junkValues.contains (jsTrimStr v) then ""
  else if (jsTrimStr v).length > 3 then v
  else ""

def cleanDetail (d : DetailResult) : DetailResult :=
  { eligibility := keepDetailVal d.eligibility
    content := keepDetailVal d.content
    period := keepDetailVal d.period
    amount := keepDetailVal d.amount }

/-- JS `item.date.includes('~')` (the ASCII tilde only). -/
def hasTilde (s : String) : Bool := s.data.contains '~'

/-- The deadline resolution of `main`:
`extractDeadlineFromPeriod(cleaned.period) || (item.date && item.date.includes('~') ? extractDeadlineFromPeriod(item.date) : '')`,
then `if (deadline) item.date = deadline`.  Returns the record's final `date`. -/
def applyDeadline (period date : String) : String :=
  let d1 := extractDeadlineFromPeriod period
  let deadline :=
    if d1 ≠ "" then d1
    else if date ≠ "" then
      if hasTilde date then extractDeadlineFromPeriod date else ""
    else ""
  if deadline ≠ "" then deadline else date

/-! ### DetailCache phase of `main` (src/collect.js)

The cache is an association list id → detail object; the detail fetch is
abstracted as a pure oracle from the item URL to the extracted fields. -/

structure CollectedItem where
  id : String
  url : String
  deriving DecidableEq, Repr

def lookupDR (cache : List (String × DetailResult)) (k : String) : Option DetailResult :=
  match cache with
  | [] => none
  | (a, b) :: t => if a = k then some b else lookupDR t k

def cachePresent (cache : List (String × DetailResult)) (id : String) : Bool :=
  (lookupDR cache id).isSome

/-- `detailCache[item.id] = detail`: update in place or append. -/
def cacheSet (cache : List (String × DetailResult)) (k : String) (v : DetailResult) :
    List (String × DetailResult) :=
  if cachePresent cache k then
    cache.map (fun p => if p.1 = k then (k, v) else p)
  else cache ++ [(k, v)]

/-- The detail phase of one run: `needDetail` is computed once from the cache
loaded at run start, then every item in it is fetched and written back
unconditionally.  Returns the updated cache and the ordered list of ids for
which a detail-page fetch was issued. -/
def runDetailPhase (oracle : String → DetailResult)
    (cache0 : List (String × DetailResult)) (items : List CollectedItem) :
    List (String × DetailResult) × List String :=
  let needDetail := items.filter (fun it => !cachePresent cache0 it.id)
  (needDetail.foldl (fun c it => cacheSet c it.id (oracle it.url)) cache0,
   needDetail.map (fun it => it.id))

/-! ### Listing walker with early stop (`getNewItems`, src/run-daily.js)

`extractId` of run-daily.js knows only the `pblancId` pattern and yields
`null` otherwise.  A page fetch is modelled by consuming the next entry of the
page sequence the site would serve; a fetch beyond the provided sequence
yields a page with no items. -/

def extractIdRd (url : String) : Option String :=
  (findCapture "pblancId=".data classUpper url.data).map String.mk

structure ListPage where
  items : List RawItem
  hasNext : Bool
  deriving DecidableEq, Repr

/-- `id && db[id]` for one listing item. -/
def pageKnown (db : List (String × String)) (it : RawItem) : Bool :=
  match extractIdRd it.url with
  | some id => dbTruthy db id
  | none => false

/-- The inner item loop of `getNewItems`: skip known items (recording that an
existing id was hit), push the rest.  Returns the pushed items, `newCount`,
and the updated `hitExisting` flag. -/
def scanPage (db : List (String × String)) (hit : Bool) :
    List RawItem → List RawItem × Nat × Bool
  | [] => ([], 0, hit)
  | it :: t =>
    if pageKnown db it then scanPage db true t
    else
      let r := scanPage db hit t
      (it :: r.1, r.2.1 + 1, r.2.2)

/-- The page loop of `getNewItems`, with the fuel counting the remaining
iterations allowed by `currentPage <= maxPages`.  Returns the accumulated
`newItems` and the number of pages fetched. -/
def walk (db : List (String × String)) :
    List ListPage → Bool → Nat → List RawItem × Nat
  | _, _, 0 => ([], 0)
  | [], _, _ + 1 => ([], 1)
  | pg :: rest, hit, f + 1 =>
    if pg.items.isEmpty then ([], 1)
    else
      let sc := scanPage db hit pg.items
      if sc.2.2 = true ∧ sc.2.1 = 0 then (sc.1, 1)
      else if !pg.hasNext then (sc.1, 1)
      else
        let m := walk db rest sc.2.2 f
        (sc.1 ++ m.1, m.2 + 1)

/-- `getNewItems(page, maxPages)` of src/run-daily.js. -/
def getNewItems (db : List (String × String)) (pages : List ListPage)
    (maxPages : Nat) : List RawItem × Nat :=
  walk db pages false maxPages

/-! ### Reference definitions and concrete scenarios used by the claims -/

/-- Modelled from the spec: intra-run title dedup keeps, in order, the first
occurrence of each normalized title ("a per-run set of normalized titles
rejects any subsequent item whose normalized title already appeared"). -/
def specDedupFirstAux : List String → List String → List String
  | [], _ => []
  | x :: t, seen =>
    if seen.contains x then specDedupFirstAux t seen
    else x :: specDedupFirstAux t (x :: seen)

def specDedupFirst (l : List String) : List String := specDedupFirstAux l []

/-- Forget the run-scoped novelty flag of a record. -/
def maskNew (r : Announcement) : Announcement := { r with isNew := false }

/-- C7 scenario: a table pairing the eligibility header with the placeholder
`해당없음`, while a definition pair downstream holds a real value. -/
def doc7 : Doc :=
  { tables := [[[⟨CTag.th, "지원대상"⟩, ⟨CTag.td, "해당없음"⟩]]]
    dts := [⟨"지원자격", some ("DD", "중소기업 대표자 누구나")⟩]
    labels := [], bodyText := "", mainContent := none }

/-- C7 scenario without the table, exposing what the next strategy yields. -/
def doc7b : Doc := { doc7 with tables := [] }

/-- C8 scenario of the spec: `<th>지원대상</th><td>청년</td>` plus loose body
text mentioning a different eligibility phrase. -/
def doc8 : Doc :=
  { tables := [[[⟨CTag.th, "지원대상"⟩, ⟨CTag.td, "청년"⟩]]]
    dts := [], labels := [], bodyText := "지원 대상 중소기업 전체", mainContent := none }

/-- C8 scenario with a paired value long enough to pass the length check. -/
def doc8b : Doc :=
  { doc8 with tables := [[[⟨CTag.th, "지원대상"⟩, ⟨CTag.td, "청년 창업자"⟩]]] }

/-- A document carrying both a period header row and a content header row. -/
def docW : Doc :=
  { tables := [[[⟨CTag.th, "신청기간"⟩, ⟨CTag.td, "2026.01.01 ~ 2026.02.02"⟩],
               [⟨CTag.th, "지원내용"⟩, ⟨CTag.td, "사업화 자금 지원"⟩]]]
    dts := [], labels := [], bodyText := "", mainContent := none }

/-- C10 scenario: a 350-character start-date cell and a short end-date cell;
each is truncated to 300, but their composition is not. -/
def longA : String := String.mk (List.replicate 350 'a')

def docLong : Doc :=
  { tables := [[[⟨CTag.th, "시작일자"⟩, ⟨CTag.td, longA⟩],
               [⟨CTag.th, "종료일자"⟩, ⟨CTag.td, "2026.01.01"⟩]]]
    dts := [], labels := [], bodyText := "", mainContent := none }

/-- C4 scenarios: a trivial fetch oracle, a run whose item list repeats one
id, and a run over two distinct ids with one of them already cached. -/
def orc0 : String → DetailResult := fun _ => {}

def dupItems : List CollectedItem := [⟨"A", "u1"⟩, ⟨"A", "u2"⟩]

def cacheW : List (String × DetailResult) := [("B", {})]

def itemsW : List CollectedItem := [⟨"A", "u1"⟩, ⟨"B", "u2"⟩]

/-- C1 scenario: three listing pages — page 1 all new, page 2 one new item
followed by already-seen ones (reverse-chronological order), page 3 entirely
already-seen — plus a fourth page that must never be fetched. -/
def bizUrl (s : String) : String := "https://www.bizinfo.go.kr/see.do?pblancId=" ++ s

def itN1 : RawItem := ⟨"신규 공고 첫번째 안내", bizUrl "PBLN_N1", "2026.01.02", ""⟩
def itN2 : RawItem := ⟨"신규 공고 두번째 안내", bizUrl "PBLN_N2", "2026.01.02", ""⟩
def itN3 : RawItem := ⟨"신규 공고 세번째 안내", bizUrl "PBLN_N3", "2026.01.01", ""⟩
def itO1 : RawItem := ⟨"기존 공고 하나 안내문", bizUrl "PBLN_O1", "2025.12.30", ""⟩
def itO2 : RawItem := ⟨"기존 공고 둘째 안내문", bizUrl "PBLN_O2", "2025.12.30", ""⟩
def itO3 : RawItem := ⟨"기존 공고 셋째 안내문", bizUrl "PBLN_O3", "2025.12.29", ""⟩
def itO4 : RawItem := ⟨"기존 공고 넷째 안내문", bizUrl "PBLN_O4", "2025.12.28", ""⟩
def itX4 : RawItem := ⟨"다음 페이지 공고 안내", bizUrl "PBLN_X4", "2025.12.27", ""⟩

def dbRd : List (String × String) :=
  [("PBLN_O1", "2025-12-30"), ("PBLN_O2", "2025-12-30"),
   ("PBLN_O3", "2025-12-29"), ("PBLN_O4", "2025-12-28")]

def pagesS : List ListPage :=
  [⟨[itN1, itN2], true⟩, ⟨[itN3, itO1, itO2], true⟩, ⟨[itO3, itO4], true⟩, ⟨[itX4], true⟩]

/-- C5 scenario: one already-seen item and one new item. -/
def rawSeen : RawItem :=
  ⟨"[서울] 기존 공고 하나 안내문", "https://x.go.kr/v.do?pblancId=PBLN_O1", "2026.01.03", ""⟩

def rawFresh : RawItem :=
  ⟨"[부산] 새로운 공고 안내문", "https://x.go.kr/v.do?pblancId=PBLN_N9", "2026.01.03", ""⟩

def dbC5 : List (String × String) := [("bizinfo_PBLN_O1", "2026-01-01")]

/-! ### Claim C2 — deadline normalizer -/

/-- Claim C2: `extractDeadlineFromPeriod` scans its input for all date-like
substrings tolerant of `.`/`-`/Korean separators, zero-pads month and day,
formats the last occurrence as `YYYY-MM-DD`, and returns the empty string when
no date occurs (in particular the empty-input guard of the source is already
subsumed by the scan); the spec's three examples evaluate as stated. -/
theorem c2_deadline_normalizer :
    extractDeadlineFromPeriod "2026.02.25 ~ 2026.03.24" = "2026-03-24"
    ∧ extractDeadlineFromPeriod "2026년 3월 24일" = "2026-03-24"
    ∧ extractDeadlineFromPeriod "no dates here" = ""
    ∧ ∀ s : String, extractDeadlineFromPeriod s =
        (match (findDatesIn s).getLast? with
         | none => ""
         | some (y, m, d) => y ++ "-" ++ padStart2 m ++ "-" ++ padStart2 d) := by
  refine ⟨by decide, by decide, by decide, ?_⟩
  intro s
  by_cases h : s = ""
  · subst h; decide
  · simp [extractDeadlineFromPeriod, h]

/-! ### Claim C3 — deadline application to the record -/

/-- Claim C3 counterexample: with an empty extracted period and a raw listing
date that contains a resolvable date but no `~`, the normalizer would resolve
`2026-03-24` from the raw date, yet the code leaves the record's date
unchanged — the fallback to the raw listing date runs only when that string
contains a `~`. -/
theorem c3_deadline_fallback_cex :
    applyDeadline "" "2026.03.24" = "2026.03.24"
    ∧ extractDeadlineFromPeriod "2026.03.24" = "2026-03-24"
    ∧ ("2026.03.24" : String) ≠ "2026-03-24" := by
  refine ⟨by decide, by decide, by decide⟩

/-- Claim C3 (amended): the normalizer is applied to the extracted period;
when that yields no deadline, it is applied to the raw listing date only if
that date contains a `~`; whenever a deadline is resolved it overwrites the
record's date, and otherwise the date is left unchanged. -/
theorem c3_deadline_fallback_amended : ∀ p dt : String,
    (extractDeadlineFromPeriod p ≠ "" → applyDeadline p dt = extractDeadlineFromPeriod p)
    ∧ (extractDeadlineFromPeriod p = "" → hasTilde dt = false → applyDeadline p dt = dt)
    ∧ (extractDeadlineFromPeriod p = "" → hasTilde dt = true →
        applyDeadline p dt =
          (if extractDeadlineFromPeriod dt = "" then dt else extractDeadlineFromPeriod dt)) := by
  intro p dt
  refine ⟨?_, ?_, ?_⟩
  · intro h; simp [applyDeadline, h]
  · intro h ht
    by_cases hdt : dt = ""
    · subst hdt; simp [applyDeadline, h]
    · simp [applyDeadline, h, hdt, ht]
  · intro h ht
    have hdt : dt ≠ "" := by
      intro he; subst he; simp [hasTilde] at ht
    by_cases hr : extractDeadlineFromPeriod dt = ""
    · simp [applyDeadline, h, hdt, ht, hr]
    · simp [applyDeadline, h, hdt, ht, hr]

/-- Witness for the amended C3 at concrete inputs. -/
theorem c3_deadline_fallback_amended_witness :
    applyDeadline "2026.02.25 ~ 2026.03.24" "x" =
      extractDeadlineFromPeriod "2026.02.25 ~ 2026.03.24"
    ∧ applyDeadline "" "abc" = "abc" :=
  ⟨(c3_deadline_fallback_amended "2026.02.25 ~ 2026.03.24" "x").1 (by decide),
   (c3_deadline_fallback_amended "" "abc").2.1 (by decide) (by decide)⟩

/-! ### Claim C6 — intra-run title dedup -/

lemma processItemsAux_map_norm (s : String) (db : List (String × String)) :
    ∀ (l : List RawItem) (seen : List String),
      (processItemsAux s db l seen).map (fun r => normalizedTitleOf r.title)
        = specDedupFirstAux (l.map (fun it => normalizedTitleOf it.title)) seen := by
  intro l
  induction l with
  | nil => intro seen; rfl
  | cons it t ih =>
    intro seen
    by_cases h : normalizedTitleOf it.title ∈ seen
    · simp [processItemsAux, specDedupFirstAux, h, ih]
    · simp [processItemsAux, specDedupFirstAux, h, ih, recordOf]

lemma specDedupFirstAux_nodup : ∀ (l seen : List String),
    (specDedupFirstAux l seen).Nodup
    ∧ ∀ x ∈ specDedupFirstAux l seen, x ∉ seen := by
  intro l
  induction l with
  | nil => intro seen; exact ⟨List.nodup_nil, by simp [specDedupFirstAux]⟩
  | cons x t ih =>
    intro seen
    by_cases h : x ∈ seen
    · rw [specDedupFirstAux, if_pos (by simpa using h)]
      exact ih seen
    · rw [specDedupFirstAux, if_neg (by simpa using h)]
      obtain ⟨hnd, hmem⟩ := ih (x :: seen)
      have hx : x ∉ specDedupFirstAux t (x :: seen) := fun hmx =>
        hmem x hmx (List.mem_cons_self x seen)
      refine ⟨List.nodup_cons.mpr ⟨hx, hnd⟩, ?_⟩
      intro y hy
      rcases List.mem_cons.mp hy with rfl | hy
      · exact h
      · exact fun hys => hmem y hy (List.mem_cons_of_mem x hys)

/-- Claim C6: within one run no two surviving records share a normalized
title, and the surviving normalized titles are exactly the first occurrences
of the raw items' normalized titles, in order. -/
theorem c6_title_dedup : ∀ (raw : List RawItem) (s : String) (db : List (String × String)),
    ((processItems raw s db).map (fun r => normalizedTitleOf r.title)).Nodup
    ∧ (processItems raw s db).map (fun r => normalizedTitleOf r.title)
        = specDedupFirst (raw.map (fun it => normalizedTitleOf it.title)) := by
  intro raw s db
  have h : (processItems raw s db).map (fun r => normalizedTitleOf r.title)
      = specDedupFirstAux (raw.map (fun it => normalizedTitleOf it.title)) [] :=
    processItemsAux_map_norm s db raw []
  refine ⟨?_, h⟩
  rw [h]
  exact (specDedupFirstAux_nodup _ []).1

/-! ### Claim C5 — novelty flag and notification path -/

lemma processItemsAux_mem (s : String) (db : List (String × String)) :
    ∀ (l : List RawItem) (seen : List String) (r : Announcement),
      r ∈ processItemsAux s db l seen → ∃ it ∈ l, r = recordOf s db it := by
  intro l
  induction l with
  | nil => intro seen r hr; simp [processItemsAux] at hr
  | cons it t ih =>
    intro seen r hr
    by_cases h : normalizedTitleOf it.title ∈ seen
    · rw [processItemsAux, if_pos (by simpa using h)] at hr
      obtain ⟨x, hx, hrx⟩ := ih seen r hr
      exact ⟨x, List.mem_cons_of_mem _ hx, hrx⟩
    · rw [processItemsAux, if_neg (by simpa using h)] at hr
      rcases List.mem_cons.mp hr with rfl | hr
      · exact ⟨it, List.mem_cons_self it t, rfl⟩
      · obtain ⟨x, hx, hrx⟩ := ih _ r hr
        exact ⟨x, List.mem_cons_of_mem _ hx, hrx⟩

lemma lookupStr_mem : ∀ (db : List (String × String)) (k v : String),
    lookupStr db k = some v → (k, v) ∈ db := by
  intro db
  induction db with
  | nil => intro k v h; simp [lookupStr] at h
  | cons p t ih =>
    intro k v h
    obtain ⟨a, b⟩ := p
    by_cases ha : a = k
    · subst ha
      simp [lookupStr] at h
      subst h
      exact List.mem_cons_self _ _
    · simp [lookupStr, ha] at h
      exact List.mem_cons_of_mem _ (ih k v h)

lemma processItemsAux_mask (s : String) (db db2 : List (String × String)) :
    ∀ (l : List RawItem) (seen : List String),
      (processItemsAux s db l seen).map maskNew
        = (processItemsAux s db2 l seen).map maskNew := by
  intro l
  induction l with
  | nil => intro seen; rfl
  | cons it t ih =>
    intro seen
    by_cases h : normalizedTitleOf it.title ∈ seen
    · simp [processItemsAux, h, ih]
    · simp [processItemsAux, h, ih, maskNew, recordOf]

/-- Claim C5: a surviving record is flagged new exactly when its id is absent
from the seen-store loaded at run start (whose values are first-seen dates,
hence nonempty); already-seen items are retained — the surviving records are
independent of the store up to the `isNew` flag — and a record enters the
email ("what's new") output exactly when it is flagged new. -/
theorem c5_isnew_semantics : ∀ (raw : List RawItem) (s : String) (db : List (String × String)),
    (∀ p ∈ db, p.2 ≠ "") →
    (∀ r ∈ processItems raw s db,
      (r.isNew = true ↔ lookupStr db r.id = none)
      ∧ (r ∈ emailNewItems (processItems raw s db) ↔ r.isNew = true))
    ∧ ∀ db2 : List (String × String),
        (processItems raw s db).map maskNew = (processItems raw s db2).map maskNew := by
  intro raw s db hdb
  constructor
  · intro r hr
    constructor
    · obtain ⟨it, _, rfl⟩ := processItemsAux_mem s db raw [] r hr
      show (!dbTruthy db (recordOf s db it).id) = true ↔ _
      cases h : lookupStr db (recordOf s db it).id with
      | none => simp [dbTruthy, lookupStr, h]
      | some v =>
        have hv : v ≠ "" := hdb _ (lookupStr_mem db _ v h)
        simp [dbTruthy, h, hv]
    · simp [emailNewItems, List.mem_filter, hr]
  · intro db2
    exact processItemsAux_mask s db db2 raw []

/-- Witness for C5 on a two-item run over a one-entry seen-store. -/
theorem c5_isnew_semantics_witness :
    ((recordOf "bizinfo" dbC5 rawSeen).isNew = true
      ↔ lookupStr dbC5 (recordOf "bizinfo" dbC5 rawSeen).id = none)
    ∧ ((recordOf "bizinfo" dbC5 rawFresh).isNew = true
      ↔ lookupStr dbC5 (recordOf "bizinfo" dbC5 rawFresh).id = none) :=
  ⟨((c5_isnew_semantics [rawSeen, rawFresh] "bizinfo" dbC5 (by decide)).1
      (recordOf "bizinfo" dbC5 rawSeen) (by decide)).1,
   ((c5_isnew_semantics [rawSeen, rawFresh] "bizinfo" dbC5 (by decide)).1
      (recordOf "bizinfo" dbC5 rawFresh) (by decide)).1⟩

/-! ### Claim C4 — DetailCache write-once behaviour -/

lemma runDetailPhase_fst (oracle : String → DetailResult)
    (cache0 : List (String × DetailResult)) (items : List CollectedItem) :
    (runDetailPhase oracle cache0 items).1
      = (items.filter (fun it => !cachePresent cache0 it.id)).foldl
          (fun c it => cacheSet c it.id (oracle it.url)) cache0 := rfl

lemma runDetailPhase_snd (oracle : String → DetailResult)
    (cache0 : List (String × DetailResult)) (items : List CollectedItem) :
    (runDetailPhase oracle cache0 items).2
      = (items.filter (fun it => !cachePresent cache0 it.id)).map (fun it => it.id) := rfl

lemma lookupDR_map_keys (k : String) (v : DetailResult) :
    ∀ (c : List (String × DetailResult)) (j : String),
      (lookupDR (c.map (fun p => if p.1 = k then (k, v) else p)) j).isSome
        = (lookupDR c j).isSome := by
  intro c
  induction c with
  | nil => intro j; rfl
  | cons p t ih =>
    intro j
    obtain ⟨a, b⟩ := p
    by_cases hak : a = k
    · rw [List.map_cons, show (if (a, b).1 = k then (k, v) else (a, b)) = (k, v) from if_pos hak]
      subst hak
      by_cases haj : a = j
      · simp [lookupDR, haj]
      · simp [lookupDR, haj, ih]
    · rw [List.map_cons, show (if (a, b).1 = k then (k, v) else (a, b)) = (a, b) from if_neg hak]
      by_cases haj : a = j
      · simp [lookupDR, haj]
      · simp [lookupDR, haj, ih]

lemma cachePresent_append (c d : List (String × DetailResult)) (j : String) :
    cachePresent (c ++ d) j = (cachePresent c j || cachePresent d j) := by
  induction c with
  | nil => simp [cachePresent, lookupDR]
  | cons p t ih =>
    obtain ⟨a, b⟩ := p
    by_cases haj : a = j
    · simp [cachePresent, lookupDR, haj]
    · simpa [cachePresent, lookupDR, haj] using ih

lemma cachePresent_cacheSet_mono {c : List (String × DetailResult)} {j : String}
    (k : String) (v : DetailResult) (h : cachePresent c j = true) :
    cachePresent (cacheSet c k v) j = true := by
  unfold cacheSet
  by_cases hp : cachePresent c k
  · rw [if_pos hp]
    unfold cachePresent
    rw [lookupDR_map_keys]
    exact h
  · rw [if_neg hp, cachePresent_append, h, Bool.true_or]

lemma cachePresent_cacheSet_self (c : List (String × DetailResult))
    (k : String) (v : DetailResult) : cachePresent (cacheSet c k v) k = true := by
  unfold cacheSet
  by_cases hp : cachePresent c k
  · rw [if_pos hp]
    unfold cachePresent
    rw [lookupDR_map_keys]
    exact hp
  · rw [if_neg hp, cachePresent_append]
    simp [cachePresent, lookupDR]

lemma foldPresent_mono (oracle : String → DetailResult) :
    ∀ (l : List CollectedItem) (c : List (String × DetailResult)) (j : String),
      cachePresent c j = true →
      cachePresent (l.foldl (fun c it => cacheSet c it.id (oracle it.url)) c) j = true := by
  intro l
  induction l with
  | nil => intro c j h; exact h
  | cons it t ih =>
    intro c j h
    exact ih _ j (cachePresent_cacheSet_mono it.id (oracle it.url) h)

lemma foldPresent_of_mem (oracle : String → DetailResult) :
    ∀ (l : List CollectedItem) (c : List (String × DetailResult)) (j : String),
      (∃ it ∈ l, it.id = j) →
      cachePresent (l.foldl (fun c it => cacheSet c it.id (oracle it.url)) c) j = true := by
  intro l
  induction l with
  | nil => intro c j h; simp at h
  | cons it t ih =>
    intro c j h
    rcases h with ⟨x, hx, hxj⟩
    rcases List.mem_cons.mp hx with rfl | hx
    · subst hxj
      exact foldPresent_mono oracle t _ x.id
        (cachePresent_cacheSet_self c x.id (oracle x.url))
    · exact ih _ j ⟨x, hx, hxj⟩

/-- Claim C4 counterexample: a run whose item list carries the same id twice
under an empty cache issues two detail fetches for that id, because the
uncached set is computed once before the fetch loop — so "at most once per id
across two consecutive runs" fails as stated. -/
theorem c4_detail_cache_cex :
    ((runDetailPhase orc0 [] dupItems).2
      ++ (runDetailPhase orc0 (runDetailPhase orc0 [] dupItems).1 dupItems).2).count "A" = 2 := by
  decide

/-- Claim C4 (amended): ids cached at run start are never fetched; every
fetched id ends the run present in the cache, even with an all-empty field
object; and provided no two items of the run share an id, at most one fetch
per id is issued across two consecutive runs over the same items (the second
run is served entirely from the cache). -/
theorem c4_detail_cache_amended : ∀ (oracle : String → DetailResult)
    (cache0 : List (String × DetailResult)) (items : List CollectedItem),
    (∀ id, cachePresent cache0 id = true → id ∉ (runDetailPhase oracle cache0 items).2)
    ∧ (∀ id, id ∈ (runDetailPhase oracle cache0 items).2 →
        cachePresent (runDetailPhase oracle cache0 items).1 id = true)
    ∧ ((items.map (fun it => it.id)).Nodup →
        ∀ id, ((runDetailPhase oracle cache0 items).2
          ++ (runDetailPhase oracle (runDetailPhase oracle cache0 items).1 items).2).count id ≤ 1) := by
  intro oracle cache0 items
  refine ⟨?_, ?_, ?_⟩
  · intro id hid hmem
    rw [runDetailPhase_snd] at hmem
    obtain ⟨it, hit, hitid⟩ := List.mem_map.mp hmem
    have h2 := (List.mem_filter.mp hit).2
    rw [hitid] at h2
    simp [hid] at h2
  · intro id hmem
    rw [runDetailPhase_snd] at hmem
    rw [runDetailPhase_fst]
    obtain ⟨it, hit, hitid⟩ := List.mem_map.mp hmem
    exact foldPresent_of_mem oracle _ cache0 id ⟨it, hit, hitid⟩
  · intro hnodup id
    have hall : ∀ it ∈ items,
        cachePresent ((items.filter (fun it => !cachePresent cache0 it.id)).foldl
          (fun c it => cacheSet c it.id (oracle it.url)) cache0) it.id = true := by
      intro it hit
      by_cases hp : cachePresent cache0 it.id = true
      · exact foldPresent_mono oracle _ cache0 it.id hp
      · refine foldPresent_of_mem oracle _ cache0 it.id ⟨it, ?_, rfl⟩
        refine List.mem_filter.mpr ⟨hit, ?_⟩
        simp only [Bool.not_eq_true] at hp
        simp [hp]
    have h2 : (runDetailPhase oracle (runDetailPhase oracle cache0 items).1 items).2 = [] := by
      rw [runDetailPhase_snd, runDetailPhase_fst, List.map_eq_nil_iff, List.filter_eq_nil_iff]
      intro it hit
      simp [hall it hit]
    rw [h2, List.append_nil, runDetailPhase_snd]
    have hsub : List.Sublist
        ((items.filter (fun it => !cachePresent cache0 it.id)).map (fun it => it.id))
        (items.map (fun it => it.id)) :=
      List.Sublist.map (fun it => it.id) (List.filter_sublist items)
    exact List.nodup_iff_count_le_one.mp (hnodup.sublist hsub) id

/-- Witness for the amended C4: one cached id, one fresh id, no duplicates. -/
theorem c4_detail_cache_amended_witness :
    "B" ∉ (runDetailPhase orc0 cacheW itemsW).2
    ∧ cachePresent (runDetailPhase orc0 cacheW itemsW).1 "A" = true
    ∧ ((runDetailPhase orc0 cacheW itemsW).2
        ++ (runDetailPhase orc0 (runDetailPhase orc0 cacheW itemsW).1 itemsW).2).count "A" ≤ 1 :=
  ⟨(c4_detail_cache_amended orc0 cacheW itemsW).1 "B" (by decide),
   (c4_detail_cache_amended orc0 cacheW itemsW).2.1 "A" (by decide),
   (c4_detail_cache_amended orc0 cacheW itemsW).2.2 (by decide) "A"⟩

/-! ### Claim C1 — listing walker early stop -/

lemma scanPage_eq (db : List (String × String)) :
    ∀ (items : List RawItem) (hit : Bool),
      scanPage db hit items
        = (items.filter (fun it => !pageKnown db it),
           (items.filter (fun it => !pageKnown db it)).length,
           hit || items.any (pageKnown db)) := by
  intro items
  induction items with
  | nil => intro hit; simp [scanPage]
  | cons it t ih =>
    intro hit
    by_cases h : pageKnown db it
    · simp [scanPage, h, ih]
    · simp [scanPage, h, ih]

/-- Claim C1: the early-stop rule of the listing walker.  The page scan keeps
exactly the items whose resolved id is not in the seen-store, counting them as
the page's newly-seen items and recording whether a known id was hit; the
walker fetches a further page exactly when the current page is nonempty, the
stop condition "a known id was encountered on or before this page and the page
yielded zero newly-seen items" fails, a next-page control exists and the page
budget is not exhausted.  In the spec's end-to-end scenario (page 3 entirely
already-seen, page 2 one new item followed by already-seen ones) exactly pages
1–3 are fetched and the output is the new items of pages 1–2 in discovery
order. -/
theorem c1_listing_walker_early_stop :
    getNewItems dbRd pagesS 10 = ([itN1, itN2, itN3], 3)
    ∧ (∀ (db : List (String × String)) (items : List RawItem) (hit : Bool),
        scanPage db hit items
          = (items.filter (fun it => !pageKnown db it),
             (items.filter (fun it => !pageKnown db it)).length,
             hit || items.any (pageKnown db)))
    ∧ (∀ (db : List (String × String)) (pg : ListPage) (rest : List ListPage)
        (hit : Bool) (f : Nat),
        (walk db (pg :: rest) hit (f + 1)).2 =
          1 + (if (!pg.items.isEmpty
                   && !((hit || pg.items.any (pageKnown db)) && pg.items.all (pageKnown db))
                   && pg.hasNext) = true
               then (walk db rest (hit || pg.items.any (pageKnown db)) f).2 else 0)) := by
  refine ⟨by decide, scanPage_eq, ?_⟩
  intro db pg rest hit f
  have hn : ((pg.items.filter (fun it => !pageKnown db it)).length = 0)
      ↔ pg.items.all (pageKnown db) = true := by
    rw [List.length_eq_zero, List.filter_eq_nil_iff]
    simp [List.all_eq_true]
  by_cases he : pg.items.isEmpty = true
  · simp [walk, he]
  · have hep : pg.items.isEmpty = false := by
      cases hq : pg.items.isEmpty
      · rfl
      · exact absurd hq he
    by_cases hstop : (hit || pg.items.any (pageKnown db)) = true
        ∧ (pg.items.filter (fun it => !pageKnown db it)).length = 0
    · have hall : pg.items.all (pageKnown db) = true := hn.mp hstop.2
      simp [walk, scanPage_eq, hep, hall, hstop.1, hstop.2]
    · have hne : pg.items ≠ [] := by
        intro hx
        exact he (by simp [hx])
      have hallf : pg.items.all (pageKnown db) = false := by
        by_contra hcon
        have hall : pg.items.all (pageKnown db) = true := by
          cases hq : pg.items.all (pageKnown db)
          · exact absurd hq hcon
          · rfl
        have hany : pg.items.any (pageKnown db) = true := by
          obtain ⟨x, hx⟩ := List.exists_mem_of_ne_nil pg.items hne
          exact List.any_eq_true.mpr ⟨x, hx, List.all_eq_true.mp hall x hx⟩
        exact hstop ⟨by simp [hany], hn.mpr hall⟩
      by_cases hnext : pg.hasNext = true
      · have hallf2 : ¬ ∀ a ∈ pg.items, pageKnown db a = true := by
          intro hp
          have hb := List.all_eq_true.mpr hp
          rw [hallf] at hb
          exact Bool.false_ne_true hb
        simp [walk, scanPage_eq, hep, hstop, hnext, hallf, Nat.add_comm]
        rw [if_neg (fun hc => hallf2 hc.2)]
      · have hnf : pg.hasNext = false := by
          cases hq : pg.hasNext
          · rfl
          · exact absurd hq hnext
        simp [walk, scanPage_eq, hep, hstop, hnf]

/-! ### Claim C9 — identity resolver totalness -/

lemma findCapture_ne (lit : List Char) (cls : Char → Bool) :
    ∀ (s r : List Char), findCapture lit cls s = some r → r ≠ [] := by
  intro s
  induction s with
  | nil => intro r h; simp [findCapture] at h
  | cons c t ih =>
    intro r h
    simp only [findCapture] at h
    split at h
    · split at h
      · exact ih r h
      · rename_i hrun
        injection h with h1
        subst h1
        simpa using hrun
    · exact ih r h

lemma findCallCapture_ne (lit : List Char) :
    ∀ (s r : List Char), findCallCapture lit s = some r → r ≠ [] := by
  intro s
  induction s with
  | nil => intro r h; simp [findCallCapture] at h
  | cons c t ih =>
    intro r h
    simp only [findCallCapture] at h
    split at h
    · split at h
      · rename_i hcond
        injection h with h1
        subst h1
        exact hcond.1
      · exact ih r h
    · exact ih r h

lemma findAmpId_ne : ∀ (s r : List Char), findAmpId s = some r → r ≠ [] := by
  intro s
  induction s with
  | nil => intro r h; simp [findAmpId] at h
  | cons c t ih =>
    intro r h
    simp only [findAmpId] at h
    split at h
    · split at h
      · rename_i hrun
        injection h with h1
        subst h1
        exact hrun
      · split at h
        · simp at h
        · exact ih r h
    · split at h
      · simp at h
      · exact ih r h

lemma findPageIndexId_ne : ∀ (s r : List Char), findPageIndexId s = some r → r ≠ [] := by
  intro s
  induction s with
  | nil => intro r h; simp [findPageIndexId] at h
  | cons c t ih =>
    intro r h
    simp only [findPageIndexId] at h
    split at h
    · split at h
      · split at h
        · rename_i r2 heq
          injection h with h1
          rw [h1] at heq
          exact findAmpId_ne _ r heq
        · exact ih r h
      · exact ih r h
    · exact ih r h

lemma findNoEq_ne : ∀ (s r : List Char), findNoEq s = some r → r ≠ [] := by
  intro s
  induction s with
  | nil => intro r h; simp [findNoEq] at h
  | cons c t ih =>
    intro r h
    simp only [findNoEq] at h
    split at h
    · split at h
      · rename_i hrun
        injection h with h1
        subst h1
        exact hrun
      · split at h
        · simp at h
        · exact ih r h
    · split at h
      · simp at h
      · exact ih r h

lemma findViewDoNo_ne : ∀ (s r : List Char), findViewDoNo s = some r → r ≠ [] := by
  intro s
  induction s with
  | nil => intro r h; simp [findViewDoNo] at h
  | cons c t ih =>
    intro r h
    simp only [findViewDoNo] at h
    split at h
    · split at h
      · rename_i r2 heq
        injection h with h1
        rw [h1] at heq
        exact findNoEq_ne _ r heq
      · exact ih r h
    · exact ih r h

lemma firstSome_mem : ∀ (l : List (Option (List Char))) (r : List Char),
    firstSome l = some r → ∃ o ∈ l, o = some r := by
  intro l
  induction l with
  | nil => intro r h; simp [firstSome] at h
  | cons o t ih =>
    intro r h
    simp only [firstSome] at h
    cases o with
    | some x =>
      injection h with h1
      exact ⟨some x, List.mem_cons_self _ _, by rw [h1]⟩
    | none =>
      obtain ⟨o2, ho2, ho2r⟩ := ih r h
      exact ⟨o2, List.mem_cons_of_mem _ ho2, ho2r⟩

lemma extractIdMatchers_ne (s : List Char) :
    ∀ o ∈ extractIdMatchers s, ∀ r : List Char, o = some r → r ≠ [] := by
  intro o ho r hor
  subst hor
  simp only [extractIdMatchers, List.mem_cons] at ho
  rcases ho with h | h | h | h | h | h | h | h | h | h | h
  · exact findCapture_ne _ _ _ r h.symm
  · exact findCapture_ne _ _ _ r h.symm
  · exact findCapture_ne _ _ _ r h.symm
  · exact findCapture_ne _ _ _ r h.symm
  · exact findCapture_ne _ _ _ r h.symm
  · exact findPageIndexId_ne _ r h.symm
  · exact findCallCapture_ne _ _ r h.symm
  · exact findCallCapture_ne _ _ r h.symm
  · exact findViewDoNo_ne _ r h.symm
  · exact findCapture_ne _ _ _ r h.symm
  · simp at h

lemma toBase36Aux_ne : ∀ (f n : Nat) (acc : List Char),
    ((n ≠ 0 ∧ f ≠ 0) ∨ acc ≠ []) → toBase36Aux f n acc ≠ [] := by
  intro f
  induction f with
  | zero =>
    intro n acc h
    rcases h with ⟨_, hf⟩ | ha
    · exact absurd rfl hf
    · exact ha
  | succ f ih =>
    intro n acc h
    cases n with
    | zero =>
      rcases h with ⟨hn, _⟩ | ha
      · exact absurd rfl hn
      · exact ha
    | succ m =>
      exact ih _ _ (Or.inr (List.cons_ne_nil _ _))

lemma toBase36_ne : ∀ n : Nat, toBase36 n ≠ "" := by
  intro n
  unfold toBase36
  by_cases h : n = 0
  · simp [h]
  · rw [if_neg h]
    intro hc
    have hd := congrArg String.data hc
    exact toBase36Aux_ne n n [] (Or.inl ⟨h, h⟩) hd

/-- Claim C9: the identity resolver is a deterministic total function — equal
URLs yield equal ids, the first matcher producing a capture wins (matcher
captures are nonempty by the `+` in each pattern), and the base-36 encoded
rolling hash serves every remaining URL — so every URL receives a nonempty
id. -/
theorem c9_extract_id_total : ∀ u v : String, u = v →
    extractId u = extractId v ∧ extractId u ≠ "" := by
  intro u v huv
  refine ⟨by rw [huv], ?_⟩
  unfold extractId
  cases h : firstSome (extractIdMatchers u.data) with
  | none => exact toBase36_ne _
  | some r =>
    obtain ⟨o, ho, hor⟩ := firstSome_mem _ r h
    have hr : r ≠ [] := extractIdMatchers_ne u.data o ho r hor
    intro hc
    have hd := congrArg String.data hc
    exact hr hd

/-- Witness for C9 at concrete URLs: a pattern-matched id and a hash-fallback
id, both nonempty. -/
theorem c9_extract_id_total_witness :
    extractId "https://www.bizinfo.go.kr/see.do?pblancId=PBLN_77" ≠ ""
    ∧ extractId "https://example.com/plain/url" ≠ ""
    ∧ extractId "https://example.com/plain/url" = extractId "https://example.com/plain/url" :=
  ⟨(c9_extract_id_total "https://www.bizinfo.go.kr/see.do?pblancId=PBLN_77" _ rfl).2,
   (c9_extract_id_total "https://example.com/plain/url" _ rfl).2,
   (c9_extract_id_total "https://example.com/plain/url" "https://example.com/plain/url" rfl).1⟩

/-! ### Claims C7, C8, C10 — candidate acceptance, strategy precedence, and
value length bounds in the field extractor -/

lemma cleanText_le (s : String) : (cleanText s).length ≤ 300 := by
  unfold cleanText
  exact List.length_take_le _ _

lemma acceptLen_some {s t : String} (h : acceptLen s = some t) :
    2 < t.length ∧ t.length ≤ 300 := by
  simp only [acceptLen] at h
  split at h
  · injection h with h1
    subst h1
    rename_i hgt
    exact ⟨hgt, cleanText_le s⟩
  · simp at h

lemma thMatchValue_some {kc : String} {ctx : ThCtx} {t : String}
    (h : thMatchValue kc ctx = some t) : 2 < t.length ∧ t.length ≤ 300 := by
  simp only [thMatchValue] at h
  split at h
  · split at h
    · rename_i t2 heq
      injection h with h1
      subst h1
      split at heq
      · split at heq
        · exact acceptLen_some heq
        · simp at heq
      · simp at heq
    · split at h
      · exact acceptLen_some h
      · simp at h
  · simp at h

lemma rowTdMatch_some {kc : String} {row : List Cell} {t : String}
    (h : rowTdMatch kc row = some t) : 2 < t.length ∧ t.length ≤ 300 := by
  simp only [rowTdMatch] at h
  split at h
  · split at h
    · rename_i t2 heq
      injection h with h1
      subst h1
      split at heq
      · split at heq
        · exact acceptLen_some heq
        · simp at heq
      · simp at heq
    · split at h
      · split at h
        · split at h
          · exact acceptLen_some h
          · simp at h
        · simp at h
      · simp at h
  · simp at h

lemma dtMatch_some {kc : String} {e : DtEntry} {t : String}
    (h : dtMatch kc e = some t) : 2 < t.length ∧ t.length ≤ 300 := by
  simp only [dtMatch] at h
  split at h
  · split at h
    · split at h
      · exact acceptLen_some h
      · simp at h
    · simp at h
  · simp at h

lemma labelMatch_some {kc : String} {e : LabelEntry} {t : String}
    (h : labelMatch kc e = some t) : 2 < t.length ∧ t.length ≤ 300 := by
  simp only [labelMatch] at h
  split at h
  · split at h
    · split at h
      · rename_i hcond
        injection h with h1
        subst h1
        simp only [Bool.and_eq_true, decide_eq_true_eq] at hcond
        exact ⟨hcond.1, cleanText_le _⟩
      · simp at h
    · simp at h
  · simp at h

lemma getThTdValue_cases (doc : Doc) (kc : String) :
    getThTdValue doc kc = ""
    ∨ (2 < (getThTdValue doc kc).length ∧ (getThTdValue doc kc).length ≤ 300) := by
  unfold getThTdValue
  cases h : (docThCtxs doc).findSome? (thMatchValue kc) with
  | none => left; rfl
  | some t =>
    right
    obtain ⟨ctx, _, hm⟩ := List.exists_of_findSome?_eq_some h
    simpa using thMatchValue_some hm

lemma tdTdValue_cases (doc : Doc) (kc : String) :
    tdTdValue doc kc = ""
    ∨ (2 < (tdTdValue doc kc).length ∧ (tdTdValue doc kc).length ≤ 300) := by
  unfold tdTdValue
  cases h : (allRows doc).findSome? (rowTdMatch kc) with
  | none => left; rfl
  | some t =>
    right
    obtain ⟨row, _, hm⟩ := List.exists_of_findSome?_eq_some h
    simpa using rowTdMatch_some hm

lemma dtDdValue_cases (doc : Doc) (kc : String) :
    dtDdValue doc kc = ""
    ∨ (2 < (dtDdValue doc kc).length ∧ (dtDdValue doc kc).length ≤ 300) := by
  unfold dtDdValue
  cases h : doc.dts.findSome? (dtMatch kc) with
  | none => left; rfl
  | some t =>
    right
    obtain ⟨e, _, hm⟩ := List.exists_of_findSome?_eq_some h
    simpa using dtMatch_some hm

lemma labelSibValue_cases (doc : Doc) (kc : String) :
    labelSibValue doc kc = ""
    ∨ (2 < (labelSibValue doc kc).length ∧ (labelSibValue doc kc).length ≤ 300) := by
  unfold labelSibValue
  cases h : doc.labels.findSome? (labelMatch kc) with
  | none => left; rfl
  | some t =>
    right
    obtain ⟨e, _, hm⟩ := List.exists_of_findSome?_eq_some h
    simpa using labelMatch_some hm


lemma extractValueKey_cases (doc : Doc) (key : String) :
    extractValueKey doc key = ""
    ∨ (2 < (extractValueKey doc key).length ∧ (extractValueKey doc key).length ≤ 300) := by
  unfold extractValueKey
  by_cases h1 : getThTdValue doc (stripWsStr key) = ""
  · rw [if_neg (fun hne => hne h1)]
    by_cases h2 : tdTdValue doc (stripWsStr key) = ""
    · rw [if_neg (fun hne => hne h2)]
      by_cases h3 : dtDdValue doc (stripWsStr key) = ""
      · rw [if_neg (fun hne => hne h3)]
        exact labelSibValue_cases doc (stripWsStr key)
      · rw [if_pos h3]
        rcases dtDdValue_cases doc (stripWsStr key) with h | h
        · exact absurd h h3
        · exact Or.inr h
    · rw [if_pos h2]
      rcases tdTdValue_cases doc (stripWsStr key) with h | h
      · exact absurd h h2
      · exact Or.inr h
  · rw [if_pos h1]
    rcases getThTdValue_cases doc (stripWsStr key) with h | h
    · exact absurd h h1
    · exact Or.inr h

lemma extractValue_cases (doc : Doc) :
    ∀ keys : List String,
      extractValue doc keys = ""
      ∨ (2 < (extractValue doc keys).length ∧ (extractValue doc keys).length ≤ 300) := by
  intro keys
  induction keys with
  | nil => left; rfl
  | cons k t ih =>
    unfold extractValue
    by_cases h : extractValueKey doc k = ""
    · rw [if_neg (fun hne => hne h)]
      exact ih
    · rw [if_pos h]
      rcases extractValueKey_cases doc k with h2 | h2
      · exact absurd h2 h
      · exact Or.inr h2

lemma getThTdValue_le300 (doc : Doc) (kc : String) : (getThTdValue doc kc).length ≤ 300 := by
  rcases getThTdValue_cases doc kc with h | h
  · rw [h]; decide
  · exact h.2

lemma extractValue_le300 (doc : Doc) (keys : List String) :
    (extractValue doc keys).length ≤ 300 := by
  rcases extractValue_cases doc keys with h | h
  · rw [h]; decide
  · exact h.2

lemma jsTrim_le (s : String) : (jsTrimStr s).length ≤ s.length := by
  show (((s.data.dropWhile jsWs).reverse.dropWhile jsWs).reverse).length ≤ s.data.length
  rw [List.length_reverse]
  calc ((s.data.dropWhile jsWs).reverse.dropWhile jsWs).length
      ≤ (s.data.dropWhile jsWs).reverse.length :=
        List.Sublist.length_le (List.dropWhile_sublist _)
    _ = (s.data.dropWhile jsWs).length := List.length_reverse _
    _ ≤ s.data.length := List.Sublist.length_le (List.dropWhile_sublist _)

lemma smtechStartVal_le300 (doc : Doc) : (smtechStartVal doc).length ≤ 300 := by
  unfold smtechStartVal
  split
  · exact getThTdValue_le300 doc _
  · exact getThTdValue_le300 doc _

lemma smtechEndVal_le300 (doc : Doc) : (smtechEndVal doc).length ≤ 300 := by
  unfold smtechEndVal
  split
  · exact getThTdValue_le300 doc _
  · split
    · exact getThTdValue_le300 doc _
    · exact getThTdValue_le300 doc _

lemma periodComposed_le603 (doc : Doc) : (periodComposed doc).length ≤ 603 := by
  unfold periodComposed
  split
  · split
    · rw [String.length_append, String.length_append]
      have h1 : (jsTrimStr (smtechStartVal doc)).length ≤ 300 :=
        le_trans (jsTrim_le _) (smtechStartVal_le300 doc)
      have h2 : (jsTrimStr (smtechEndVal doc)).length ≤ 300 :=
        le_trans (jsTrim_le _) (smtechEndVal_le300 doc)
      have h3 : (" ~ " : String).length = 3 := rfl
      omega
    · exact le_trans (le_trans (jsTrim_le _) (smtechEndVal_le300 doc)) (by omega)
  · decide

lemma try10Date_len : ∀ (s : List Char) (g r : List Char),
    try10Date s = some (g, r) → g.length = 10 := by
  intro s g r h
  unfold try10Date at h
  split at h
  · split at h
    · simp only [Option.some.injEq, Prod.mk.injEq] at h
      rw [← h.1]
      rfl
    · simp at h
  · simp at h

lemma tryRangeAt_len : ∀ (s : List Char) (g1 g2 : String),
    tryRangeAt s = some (g1, g2) → g1.length = 10 ∧ g2.length = 10 := by
  intro s g1 g2 h
  unfold tryRangeAt at h
  split at h
  · rename_i ga r1 heq1
    split at h
    · rename_i tl r3
      split at h
      · split at h
        · rename_i gb r4 heq2
          simp only [Option.some.injEq, Prod.mk.injEq] at h
          obtain ⟨h1, h2⟩ := h
          constructor
          · rw [← h1]
            show ga.length = 10
            exact try10Date_len _ ga r1 heq1
          · rw [← h2]
            show gb.length = 10
            exact try10Date_len _ gb r4 heq2
        · simp at h
      · simp at h
    · simp at h
  · simp at h

lemma findRangeAux_len : ∀ (f : Nat) (s : List Char) (g1 g2 : String),
    findRangeAux f s = some (g1, g2) → g1.length = 10 ∧ g2.length = 10 := by
  intro f
  induction f with
  | zero => intro s g1 g2 h; simp [findRangeAux] at h
  | succ f ih =>
    intro s g1 g2 h
    cases s with
    | nil => simp [findRangeAux] at h
    | cons c t =>
      simp only [findRangeAux] at h
      split at h
      · rename_i r heq
        rw [h] at heq
        exact tryRangeAt_len _ g1 g2 heq
      · exact ih t g1 g2 h

lemma periodField_le603 (doc : Doc) : (periodField doc).length ≤ 603 := by
  unfold periodField
  split
  · exact le_trans (extractValue_le300 doc periodKeys) (by omega)
  · split
    · exact periodComposed_le603 doc
    · split
      · rename_i g1 g2 heq
        obtain ⟨h1, h2⟩ := findRangeAux_len _ _ g1 g2 heq
        rw [String.length_append, String.length_append, h1, h2]
        decide
      · decide

lemma contentField_le300 (doc : Doc) : (contentField doc).length ≤ 300 := by
  unfold contentField
  split
  · exact extractValue_le300 doc contentKeys
  · split
    · exact getThTdValue_le300 doc _
    · split
      · exact cleanText_le _
      · decide

/-! ### Claim C10 — 300-character truncation -/

set_option maxRecDepth 8000 in
/-- Claim C10 counterexample: the period composed from separate start/end
date cells is the concatenation of two already-truncated values, so it can
exceed 300 characters — here it has 313, and it survives the junk filter into
the record's detail object and the DetailCache entry. -/
theorem c10_length_bound_cex :
    300 < (cleanDetail (fetchDetailFields docLong)).period.length
    ∧ (cleanDetail (fetchDetailFields docLong)).period.length = 313 := by
  constructor
  · decide
  · decide

/-- Claim C10 (amended): every extracted eligibility, content and amount
value is at most 300 characters (every candidate is cleaned and truncated to
300), and the period field is at most 603 characters — the one exception to
the 300 bound being the `start ~ end` composition of two truncated values. -/
theorem c10_length_bound_amended : ∀ doc : Doc,
    (fetchDetailFields doc).eligibility.length ≤ 300
    ∧ (fetchDetailFields doc).content.length ≤ 300
    ∧ (fetchDetailFields doc).amount.length ≤ 300
    ∧ (fetchDetailFields doc).period.length ≤ 603 := by
  intro doc
  exact ⟨extractValue_le300 doc eligibilityKeys, contentField_le300 doc,
    extractValue_le300 doc amountKeys, periodField_le603 doc⟩

/-! ### Claim C7 — junk rejection and fallthrough -/

lemma cleanDetail_elig (d : DetailResult) :
    (cleanDetail d).eligibility = keepDetailVal d.eligibility := rfl

lemma cleanDetail_content (d : DetailResult) :
    (cleanDetail d).content = keepDetailVal d.content := rfl

lemma cleanDetail_period (d : DetailResult) :
    (cleanDetail d).period = keepDetailVal d.period := rfl

lemma cleanDetail_amount (d : DetailResult) :
    (cleanDetail d).amount = keepDetailVal d.amount := rfl

lemma keepDetailVal_cases (v : String) :
    keepDetailVal v = ""
    ∨ (keepDetailVal v = v ∧ junkValues.contains (jsTrimStr v) = false
        ∧ 3 < (jsTrimStr v).length) := by
  unfold keepDetailVal
  split
  · exact Or.inl rfl
  · split
    · exact Or.inl rfl
    · split
      · rename_i hjunk hlen
        refine Or.inr ⟨rfl, ?_, hlen⟩
        cases hq : junkValues.contains (jsTrimStr v)
        · rfl
        · exact absurd hq hjunk
      · exact Or.inl rfl

/-- Claim C7 counterexample: the junk placeholder `해당없음` (length 4) is
accepted by the header/value-row strategy — its rejection happens only in the
post-extraction cleanup, without falling through to the next strategy — so the
surviving definition-pair value is lost and the final eligibility field is
empty rather than the next strategy's value. -/
theorem c7_junk_fallthrough_cex :
    (fetchDetailFields doc7).eligibility = "해당없음"
    ∧ junkValues.contains (jsTrimStr "해당없음") = true
    ∧ (cleanDetail (fetchDetailFields doc7)).eligibility = ""
    ∧ (fetchDetailFields doc7b).eligibility = "중소기업 대표자 누구나" := by
  refine ⟨by decide, by decide, by decide, by decide⟩

/-- Claim C7 (amended): inside the extraction strategies only the minimum
length check (cleaned length > 2, plus an upper bound in the label-sibling
strategy) rejects a candidate and causes fallthrough, so every value accepted
by `extractValue` is longer than 2; the junk placeholders and the stricter
trimmed-length-> 3 check are applied afterwards, when the record's detail is
assembled, without fallthrough — consequently no junk value and no value of
trimmed length at most 3 ever appears in a record's final detail fields. -/
theorem c7_junk_filtering_amended : ∀ (doc : Doc) (keys : List String),
    (extractValue doc keys = "" ∨ 2 < (extractValue doc keys).length)
    ∧ (∀ v ∈ [(cleanDetail (fetchDetailFields doc)).eligibility,
              (cleanDetail (fetchDetailFields doc)).content,
              (cleanDetail (fetchDetailFields doc)).period,
              (cleanDetail (fetchDetailFields doc)).amount],
        v ≠ "" → junkValues.contains (jsTrimStr v) = false ∧ 3 < (jsTrimStr v).length) := by
  intro doc keys
  have hkeep : ∀ x : String, keepDetailVal x ≠ "" →
      junkValues.contains (jsTrimStr (keepDetailVal x)) = false
      ∧ 3 < (jsTrimStr (keepDetailVal x)).length := by
    intro x hx
    rcases keepDetailVal_cases x with h | ⟨heq, hc, hl⟩
    · exact absurd h hx
    · rw [heq]
      exact ⟨hc, hl⟩
  refine ⟨?_, ?_⟩
  · rcases extractValue_cases doc keys with h | h
    · exact Or.inl h
    · exact Or.inr h.1
  · intro v hv hne
    simp only [cleanDetail_elig, cleanDetail_content, cleanDetail_period, cleanDetail_amount,
      List.mem_cons, List.not_mem_nil, or_false] at hv
    rcases hv with rfl | rfl | rfl | rfl
    · exact hkeep _ hne
    · exact hkeep _ hne
    · exact hkeep _ hne
    · exact hkeep _ hne

/-- Witness for the amended C7: the surviving eligibility value of the C7
scenario without its junk table row is neither junk nor short. -/
theorem c7_junk_filtering_amended_witness :
    junkValues.contains (jsTrimStr (cleanDetail (fetchDetailFields doc7b)).eligibility) = false
    ∧ 3 < (jsTrimStr (cleanDetail (fetchDetailFields doc7b)).eligibility).length :=
  (c7_junk_filtering_amended doc7b eligibilityKeys).2
    ((cleanDetail (fetchDetailFields doc7b)).eligibility)
    (List.mem_cons_self _ _) (by decide)

/-! ### Claim C8 — header/value-row precedence -/

/-- Claim C8 counterexample: on the spec's own example document the paired
value `청년` has length 2 and is rejected by the minimum-length check, so the
extractor returns the empty string for eligibility, not the paired value. -/
theorem c8_th_td_example_cex :
    (fetchDetailFields doc8).eligibility = ""
    ∧ (fetchDetailFields doc8).eligibility ≠ "청년" := by
  refine ⟨by decide, by decide⟩

/-- Claim C8 (amended): the header/value-row strategy takes precedence and
its accepted value is returned — provided the paired value passes the
minimum-length check (cleaned length > 2), which the spec's example value
`청년` does not; eligibility is produced by the strategy cascade alone (the
body-text fallbacks never touch it), and the period/content fallbacks run
only when the cascade produced nothing. -/
theorem c8_th_td_precedence_amended :
    (fetchDetailFields doc8b).eligibility = "청년 창업자"
    ∧ (∀ doc : Doc, (fetchDetailFields doc).eligibility = extractValue doc eligibilityKeys)
    ∧ (∀ doc : Doc, extractValue doc periodKeys ≠ "" →
        (fetchDetailFields doc).period = extractValue doc periodKeys)
    ∧ (∀ doc : Doc, extractValue doc contentKeys ≠ "" →
        (fetchDetailFields doc).content = extractValue doc contentKeys) := by
  refine ⟨by decide, fun doc => rfl, ?_, ?_⟩
  · intro doc h
    show periodField doc = extractValue doc periodKeys
    unfold periodField
    rw [if_pos h]
  · intro doc h
    show contentField doc = extractValue doc contentKeys
    unfold contentField
    rw [if_pos h]

/-- Witness for the amended C8 on a document whose period and content rows
are found by the synonym cascade. -/
theorem c8_th_td_precedence_amended_witness :
    (fetchDetailFields docW).period = extractValue docW periodKeys
    ∧ (fetchDetailFields docW).content = extractValue docW contentKeys :=
  ⟨c8_th_td_precedence_amended.2.2.1 docW (by decide),
   c8_th_td_precedence_amended.2.2.2 docW (by decide)⟩
